import Mathlib

/-!
Verification of the DNA-to-protein translation core of `src/app.py`.

Strings of the Python source are modelled as `List Char`.  The core
functions `clean_sequence` (app.py lines 82-85), `trim_to_codons`
(lines 87-88), `translate_to_protein` (lines 90-98), the start/stop
highlighting loop (lines 142-149), the `Counter(protein)` frequency
count (line 163) and the FASTA upload handling (lines 71-77) are
embedded below, each next to a comment naming its source location.
-/

namespace DnaApp

/-- The allowed-nucleotide test of `clean_sequence` (app.py line 83):
`allowed = {"A", "T", "G", "C"}` together with the comprehension test
`nuc in allowed`. -/
def allowed (c : Char) : Bool :=
  c == 'A' || c == 'T' || c == 'G' || c == 'C'

/-- `clean_sequence` (app.py lines 82-85):
`seq = seq.upper().replace(" ", "").replace("\n", "")` followed by
`"".join([nuc for nuc in seq if nuc in allowed])`.
`.upper()` is `Char.toUpper` pointwise, the two `replace`s delete every
space and newline, and the comprehension keeps only allowed characters. -/
def clean_sequence (seq : List Char) : List Char :=
  ((((seq.map Char.toUpper).filter (fun c => c != ' ')).filter
      (fun c => c != '\n'))).filter (fun c => allowed c)

/-- `trim_to_codons` (app.py lines 87-88):
`seq[:len(seq) - (len(seq) % 3)]`. -/
def trim_to_codons (seq : List Char) : List Char :=
  seq.take (seq.length - seq.length % 3)

/-- The codon windows `seq[i:i+3]` for `i in range(0, len(seq), 3)`,
shared by the loops at app.py lines 93-97 and 142-149: consecutive
non-overlapping windows of three characters, a shorter final window
when the length is not a multiple of 3. -/
def codons : List Char → List (List Char)
  | [] => []
  | [a] => [[a]]
  | [a, b] => [[a, b]]
  | a :: b :: c :: rest => [a, b, c] :: codons rest

/-- Modelled from the spec: `CODON_TABLE` is imported from
`codon_table.py`, a file that is not under `src/`.  The spec describes
it as "a static, immutable mapping from every one of the 64 possible
Codon values to a single amino-acid symbol (one of 20 standard
one-letter codes) or a stop marker" implementing the standard genetic
code (Scenario A fixes ATG to M, CAT to H and TAA to the stop symbol). -/
def CODON_TABLE : List (String × Char) :=
  [("TTT", 'F'), ("TTC", 'F'), ("TTA", 'L'), ("TTG", 'L'),
   ("CTT", 'L'), ("CTC", 'L'), ("CTA", 'L'), ("CTG", 'L'),
   ("ATT", 'I'), ("ATC", 'I'), ("ATA", 'I'), ("ATG", 'M'),
   ("GTT", 'V'), ("GTC", 'V'), ("GTA", 'V'), ("GTG", 'V'),
   ("TCT", 'S'), ("TCC", 'S'), ("TCA", 'S'), ("TCG", 'S'),
   ("CCT", 'P'), ("CCC", 'P'), ("CCA", 'P'), ("CCG", 'P'),
   ("ACT", 'T'), ("ACC", 'T'), ("ACA", 'T'), ("ACG", 'T'),
   ("GCT", 'A'), ("GCC", 'A'), ("GCA", 'A'), ("GCG", 'A'),
   ("TAT", 'Y'), ("TAC", 'Y'), ("TAA", '*'), ("TAG", '*'),
   ("CAT", 'H'), ("CAC", 'H'), ("CAA", 'Q'), ("CAG", 'Q'),
   ("AAT", 'N'), ("AAC", 'N'), ("AAA", 'K'), ("AAG", 'K'),
   ("GAT", 'D'), ("GAC", 'D'), ("GAA", 'E'), ("GAG", 'E'),
   ("TGT", 'C'), ("TGC", 'C'), ("TGA", '*'), ("TGG", 'W'),
   ("CGT", 'R'), ("CGC", 'R'), ("CGA", 'R'), ("CGG", 'R'),
   ("AGT", 'S'), ("AGC", 'S'), ("AGA", 'R'), ("AGG", 'R'),
   ("GGT", 'G'), ("GGC", 'G'), ("GGA", 'G'), ("GGG", 'G')]

/-- Dictionary lookup `CODON_TABLE[codon]` as an optional value:
`some` an amino-acid symbol when `codon` is a key, `none` otherwise. -/
def tableGet (codon : List Char) : Option Char :=
  (CODON_TABLE.find? (fun p => p.1.toList == codon)).map Prod.snd

/-- `CODON_TABLE.get(codon, '-')` (app.py line 95): the table value when
the codon is a key, the sentinel `'-'` otherwise. -/
def lookupAmino (codon : List Char) : Char :=
  (tableGet codon).getD '-'

/-- `translate_to_protein` (app.py lines 90-98).  The loop appends one
amino acid per window to `protein_sequence` and one codon/amino-acid
record to `codon_breakdown` (the source formats each record as the
string `f"{codon} → {amino_acid}"`; its content is the pair). -/
def translate_to_protein (seq : List Char) :
    List Char × List (List Char × Char) :=
  ((codons seq).map lookupAmino, (codons seq).map (fun c => (c, lookupAmino c)))

/-- The three classification outcomes of the highlighting loop
(app.py lines 144-149). -/
inductive CodonTag
  | Start
  | Stop
  | Plain
  deriving DecidableEq, Repr

/-- The per-codon branch of the highlighting loop (app.py lines 144-149):
`if codon == 'ATG'` then start, `elif codon in ['TAA', 'TAG', 'TGA']`
then stop, else plain. -/
def classify_codon (codon : List Char) : CodonTag :=
  if codon = "ATG".toList then CodonTag.Start
  else if codon = "TAA".toList ∨ codon = "TAG".toList ∨ codon = "TGA".toList then
    CodonTag.Stop
  else CodonTag.Plain

/-- The whole highlighting pass (app.py lines 142-149): one tag per
window of `seq`, in order, over the entire sequence. -/
def classify (seq : List Char) : List CodonTag :=
  (codons seq).map classify_codon

/-- The distinct elements of a list in first-occurrence order: the key
order of `collections.Counter` built from it. -/
def counterKeys : List Char → List Char
  | [] => []
  | c :: rest => c :: (counterKeys rest).filter (fun x => x != c)

/-- `aa_count = Counter(protein)` (app.py line 163): each distinct
symbol of `protein` paired with its number of occurrences. -/
def aa_count (protein : List Char) : List (Char × Nat) :=
  (counterKeys protein).map (fun c => (c, protein.count c))

/-- `file_content.startswith(">")` (app.py line 72). -/
def startswithGt : List Char → Bool
  | '>' :: _ => true
  | _ => false

/-- `file_content.splitlines()` (app.py line 73), for newline-separated
text: splits at each newline character, with no trailing empty line for
text that ends in a newline, and no line at all for empty text. -/
def splitlines : List Char → List (List Char)
  | [] => []
  | c :: rest =>
    if c = '\n' then [] :: splitlines rest
    else
      match splitlines rest with
      | [] => [[c]]
      | line :: lines => (c :: line) :: lines

/-- Python `.strip()` (app.py line 77): remove leading and trailing
whitespace. -/
def pyStrip (s : List Char) : List Char :=
  ((s.dropWhile Char.isWhitespace).reverse.dropWhile Char.isWhitespace).reverse

/-- The FASTA handling of the upload branch (app.py lines 71-77): when
the content starts with `>`, drop every line starting with `>` and
concatenate the rest; otherwise strip the content. -/
def extract_uploaded (file_content : List Char) : List Char :=
  if startswithGt file_content then
    ((splitlines file_content).filter (fun l => !startswithGt l)).flatten
  else pyStrip file_content

/-- The spec's Sanitizer component: FASTA extraction (app.py lines
71-77) followed by `clean_sequence` (app.py line 104). -/
def sanitize (raw : List Char) : List Char :=
  clean_sequence (extract_uploaded raw)

/-! ### Helper lemmas about the codon windows -/

theorem codons_flatten : ∀ seq : List Char, (codons seq).flatten = seq
  | [] => rfl
  | [_] => rfl
  | [_, _] => rfl
  | a :: b :: c :: rest => by
    simp [codons, codons_flatten rest]

theorem codons_length_of_mod3 : ∀ seq : List Char, seq.length % 3 = 0 →
    (codons seq).length = seq.length / 3
  | [], _ => rfl
  | [_], h => by simp at h
  | [_, _], h => by simp at h
  | a :: b :: c :: rest, h => by
    have h3 : rest.length % 3 = 0 := by
      simp only [List.length_cons] at h
      omega
    simp only [codons, List.length_cons, codons_length_of_mod3 rest h3]
    omega

theorem codons_getElem : ∀ (seq : List Char) (i : Nat)
    (h : i < (codons seq).length), (codons seq)[i] = (seq.drop (3 * i)).take 3
  | [], i, h => absurd h (by simp [codons])
  | [a], 0, _ => rfl
  | [a], i + 1, h => absurd h (by simp [codons])
  | [a, b], 0, _ => rfl
  | [a, b], i + 1, h => absurd h (by simp [codons])
  | a :: b :: c :: rest, 0, _ => rfl
  | a :: b :: c :: rest, i + 1, h => by
    have h' : i < (codons rest).length := by
      simpa [codons] using h
    have ih := codons_getElem rest i h'
    simp only [codons, List.getElem_cons_succ]
    rw [ih, show 3 * (i + 1) = 3 * i + 1 + 1 + 1 by ring,
      List.drop_succ_cons, List.drop_succ_cons, List.drop_succ_cons]

/-! ### Claim theorems -/

/-- C2: for every coding sequence (length divisible by 3), the protein
returned by `translate_to_protein` has length exactly `length / 3`, the
codon trace has the same length as the protein, and entry `i` of the
trace records the codon at offset `3 * i` together with the amino-acid
symbol at position `i` of the protein. -/
theorem translate_to_protein_spec (seq : List Char) (h3 : seq.length % 3 = 0) :
    (translate_to_protein seq).1.length = seq.length / 3 ∧
    (translate_to_protein seq).2.length = (translate_to_protein seq).1.length ∧
    (∀ i (hi : i < (translate_to_protein seq).1.length),
      (translate_to_protein seq).1[i] = lookupAmino ((seq.drop (3 * i)).take 3)) ∧
    (∀ i (hi : i < (translate_to_protein seq).2.length),
      (translate_to_protein seq).2[i] =
        ((seq.drop (3 * i)).take 3, lookupAmino ((seq.drop (3 * i)).take 3))) := by
  refine ⟨?_, ?_, ?_, ?_⟩
  · simpa [translate_to_protein] using codons_length_of_mod3 seq h3
  · simp [translate_to_protein]
  · intro i hi
    have hi' : i < (codons seq).length := by
      simpa [translate_to_protein] using hi
    simp only [translate_to_protein, List.getElem_map]
    rw [codons_getElem seq i hi']
  · intro i hi
    have hi' : i < (codons seq).length := by
      simpa [translate_to_protein] using hi
    simp only [translate_to_protein, List.getElem_map]
    rw [codons_getElem seq i hi']

/-- C2 witness: the theorem applied to the concrete sequence ATGCAT. -/
theorem translate_to_protein_spec_witness :
    ("ATGCAT".toList).length % 3 = 0 ∧
    ((translate_to_protein ("ATGCAT".toList)).1.length = ("ATGCAT".toList).length / 3 ∧
     (translate_to_protein ("ATGCAT".toList)).2.length =
       (translate_to_protein ("ATGCAT".toList)).1.length ∧
     (∀ i (hi : i < (translate_to_protein ("ATGCAT".toList)).1.length),
       (translate_to_protein ("ATGCAT".toList)).1[i] =
         lookupAmino ((("ATGCAT".toList).drop (3 * i)).take 3)) ∧
     (∀ i (hi : i < (translate_to_protein ("ATGCAT".toList)).2.length),
       (translate_to_protein ("ATGCAT".toList)).2[i] =
         ((("ATGCAT".toList).drop (3 * i)).take 3,
           lookupAmino ((("ATGCAT".toList).drop (3 * i)).take 3)))) :=
  ⟨by decide, translate_to_protein_spec ("ATGCAT".toList) (by decide)⟩

/-- C3: for every coding sequence, concatenating in order the codon
components of the trace produced by `translate_to_protein` reconstructs
the input sequence exactly. -/
theorem codon_trace_roundtrip (seq : List Char) (_h3 : seq.length % 3 = 0) :
    ((translate_to_protein seq).2.map Prod.fst).flatten = seq := by
  simp only [translate_to_protein, List.map_map]
  have hfun : (Prod.fst ∘ fun c : List Char => (c, lookupAmino c)) = id := rfl
  rw [hfun, List.map_id, codons_flatten]

/-- C3 witness: the round trip on the concrete sequence ATGCATTAA. -/
theorem codon_trace_roundtrip_witness :
    ("ATGCATTAA".toList).length % 3 = 0 ∧
    ((translate_to_protein ("ATGCATTAA".toList)).2.map Prod.fst).flatten =
      "ATGCATTAA".toList :=
  ⟨by decide, codon_trace_roundtrip ("ATGCATTAA".toList) (by decide)⟩

/-- C6: for every sequence, `trim_to_codons` returns a result whose
length is divisible by 3 and at most the input length, drops 0, 1 or 2
symbols, and is the prefix of the input obtained by dropping exactly
that many symbols from the end. -/
theorem trim_to_codons_spec (seq : List Char) :
    (trim_to_codons seq).length % 3 = 0 ∧
    (trim_to_codons seq).length ≤ seq.length ∧
    (seq.length - (trim_to_codons seq).length = 0 ∨
     seq.length - (trim_to_codons seq).length = 1 ∨
     seq.length - (trim_to_codons seq).length = 2) ∧
    trim_to_codons seq ++ seq.drop (seq.length - seq.length % 3) = seq := by
  have hlen : (trim_to_codons seq).length = seq.length - seq.length % 3 := by
    simp only [trim_to_codons, List.length_take]
    omega
  refine ⟨by omega, by omega, by omega, ?_⟩
  simp [trim_to_codons]

/-- C6 witness: the theorem applied to the concrete clean sequence of
Scenario B, where one trailing base is dropped. -/
theorem trim_to_codons_spec_witness :
    (trim_to_codons ("ATGC".toList)).length % 3 = 0 ∧
    (trim_to_codons ("ATGC".toList)).length ≤ ("ATGC".toList).length ∧
    (("ATGC".toList).length - (trim_to_codons ("ATGC".toList)).length = 0 ∨
     ("ATGC".toList).length - (trim_to_codons ("ATGC".toList)).length = 1 ∨
     ("ATGC".toList).length - (trim_to_codons ("ATGC".toList)).length = 2) ∧
    trim_to_codons ("ATGC".toList) ++
      ("ATGC".toList).drop (("ATGC".toList).length - ("ATGC".toList).length % 3) =
      "ATGC".toList :=
  trim_to_codons_spec ("ATGC".toList)

/-- C7: for every input, every character of the `clean_sequence` output
is one of the uppercase letters A, T, G, C, and the output is no longer
than the input. -/
theorem clean_sequence_alphabet (s : List Char) :
    (∀ c ∈ clean_sequence s, c = 'A' ∨ c = 'T' ∨ c = 'G' ∨ c = 'C') ∧
    (clean_sequence s).length ≤ s.length := by
  constructor
  · intro c hc
    simp only [clean_sequence, List.mem_filter] at hc
    have hall := hc.2
    simp only [allowed, Bool.or_eq_true, beq_iff_eq] at hall
    tauto
  · calc (clean_sequence s).length
        ≤ (((s.map Char.toUpper).filter (fun c => c != ' ')).filter
            (fun c => c != '\n')).length := List.length_filter_le _ _
      _ ≤ ((s.map Char.toUpper).filter (fun c => c != ' ')).length :=
          List.length_filter_le _ _
      _ ≤ (s.map Char.toUpper).length := List.length_filter_le _ _
      _ = s.length := List.length_map _ _

/-- C7 witness: the theorem applied to the concrete raw input of
Scenario A. -/
theorem clean_sequence_alphabet_witness :
    (∀ c ∈ clean_sequence ("atg cat TAA".toList),
      c = 'A' ∨ c = 'T' ∨ c = 'G' ∨ c = 'C') ∧
    (clean_sequence ("atg cat TAA".toList)).length ≤ ("atg cat TAA".toList).length :=
  clean_sequence_alphabet ("atg cat TAA".toList)

/-- C4: any entry of the codon trace whose codon is not a key of
`CODON_TABLE` carries the sentinel symbol `'-'`; the lookup never fails. -/
theorem missing_codon_maps_to_dash (seq : List Char) (p : List Char × Char)
    (hp : p ∈ (translate_to_protein seq).2) (hmiss : tableGet p.1 = none) :
    p.2 = '-' := by
  simp only [translate_to_protein, List.mem_map] at hp
  obtain ⟨c, -, rfl⟩ := hp
  simp only at hmiss
  simp [lookupAmino, hmiss]

/-- C4 witness: the input AT (a two-character final window) produces a
codon that is not a key of the table and is mapped to the sentinel. -/
theorem missing_codon_maps_to_dash_witness :
    (("AT".toList, '-') ∈ (translate_to_protein ("AT".toList)).2) ∧
    tableGet ("AT".toList, '-').1 = none ∧ ("AT".toList, '-').2 = '-' :=
  ⟨by decide, by decide,
    missing_codon_maps_to_dash ("AT".toList) ("AT".toList, '-') (by decide) (by decide)⟩

/-- C5: for every coding sequence, `classify` produces exactly one tag
per 3-symbol window (no early termination at a stop codon), the tag
list is index-aligned with the codon trace, tag `i` is the
classification of the window at offset `3 * i`, and the per-codon rule
sends ATG to Start, TAA, TAG and TGA to Stop, and everything else to
Plain. -/
theorem classify_spec (seq : List Char) (h3 : seq.length % 3 = 0) :
    (classify seq).length = seq.length / 3 ∧
    (classify seq).length = (translate_to_protein seq).2.length ∧
    (∀ i (hi : i < (classify seq).length),
      (classify seq)[i] = classify_codon ((seq.drop (3 * i)).take 3)) ∧
    classify_codon ("ATG".toList) = CodonTag.Start ∧
    classify_codon ("TAA".toList) = CodonTag.Stop ∧
    classify_codon ("TAG".toList) = CodonTag.Stop ∧
    classify_codon ("TGA".toList) = CodonTag.Stop ∧
    (∀ codon : List Char, codon ≠ "ATG".toList → codon ≠ "TAA".toList →
      codon ≠ "TAG".toList → codon ≠ "TGA".toList →
      classify_codon codon = CodonTag.Plain) := by
  refine ⟨?_, ?_, ?_, rfl, rfl, rfl, rfl, ?_⟩
  · simpa [classify] using codons_length_of_mod3 seq h3
  · simp [classify, translate_to_protein]
  · intro i hi
    have hi' : i < (codons seq).length := by
      simpa [classify] using hi
    simp only [classify, List.getElem_map]
    rw [codons_getElem seq i hi']
  · intro codon h1 h2 h3 h4
    have e1 : "ATG".toList = ['A', 'T', 'G'] := rfl
    have e2 : "TAA".toList = ['T', 'A', 'A'] := rfl
    have e3 : "TAG".toList = ['T', 'A', 'G'] := rfl
    have e4 : "TGA".toList = ['T', 'G', 'A'] := rfl
    rw [e1] at h1
    rw [e2] at h2
    rw [e3] at h3
    rw [e4] at h4
    simp [classify_codon, h1, h2, h3, h4]

/-- C5 witness: the theorem applied to ATGTAACAT, a sequence with a
stop codon in its middle window; all three windows are tagged. -/
theorem classify_spec_witness :
    ("ATGTAACAT".toList).length % 3 = 0 ∧
    (classify ("ATGTAACAT".toList)).length = ("ATGTAACAT".toList).length / 3 ∧
    (classify ("ATGTAACAT".toList)).length =
      (translate_to_protein ("ATGTAACAT".toList)).2.length ∧
    (∀ i (hi : i < (classify ("ATGTAACAT".toList)).length),
      (classify ("ATGTAACAT".toList))[i] =
        classify_codon ((("ATGTAACAT".toList).drop (3 * i)).take 3)) ∧
    classify_codon ("ATG".toList) = CodonTag.Start ∧
    classify_codon ("TAA".toList) = CodonTag.Stop ∧
    classify_codon ("TAG".toList) = CodonTag.Stop ∧
    classify_codon ("TGA".toList) = CodonTag.Stop ∧
    (∀ codon : List Char, codon ≠ "ATG".toList → codon ≠ "TAA".toList →
      codon ≠ "TAG".toList → codon ≠ "TGA".toList →
      classify_codon codon = CodonTag.Plain) :=
  ⟨by decide, classify_spec ("ATGTAACAT".toList) (by decide)⟩

/-- C9: the empty coding sequence yields an empty protein and an empty
trace, and every core stage returns a well-defined (empty) result on
empty or fully-invalid inputs instead of failing: in this embedding
each stage is a total function, and the empty and invalid cases
evaluate to the stated sentinel results. -/
theorem empty_and_invalid_inputs :
    translate_to_protein [] = ([], []) ∧
    clean_sequence [] = [] ∧
    trim_to_codons [] = [] ∧
    classify [] = [] ∧
    aa_count [] = [] ∧
    sanitize [] = [] ∧
    clean_sequence ("XYZ123".toList) = [] ∧
    trim_to_codons ("AT".toList) = [] := by
  refine ⟨rfl, rfl, rfl, rfl, rfl, rfl, ?_, ?_⟩ <;> decide

theorem mem_counterKeys (c : Char) (l : List Char) :
    c ∈ counterKeys l ↔ c ∈ l := by
  induction l with
  | nil => simp [counterKeys]
  | cons a rest ih =>
    simp only [counterKeys, List.mem_cons, List.mem_filter, bne_iff_ne, ih]
    by_cases hca : c = a
    · simp [hca]
    · simp [hca]

theorem counterKeys_nodup (l : List Char) : (counterKeys l).Nodup := by
  induction l with
  | nil => simp [counterKeys]
  | cons a rest ih =>
    simp only [counterKeys, List.nodup_cons]
    refine ⟨?_, ih.filter _⟩
    intro hmem
    simp [List.mem_filter] at hmem

theorem counterKeys_sum_count (l : List Char) :
    ((counterKeys l).map (fun c => l.count c)).sum = l.length := by
  have hnd := counterKeys_nodup l
  have hfin : (counterKeys l).toFinset = l.toFinset := by
    ext x
    simp [List.mem_toFinset, mem_counterKeys]
  calc ((counterKeys l).map (fun c => l.count c)).sum
      = (counterKeys l).toFinset.sum (fun c => l.count c) :=
        (List.sum_toFinset _ hnd).symm
    _ = l.toFinset.sum (fun c => l.count c) := by rw [hfin]
    _ = l.length := List.sum_toFinset_count_eq_length l

/-- C8: for every protein, `aa_count` has one entry per symbol occurring
in the protein (and no others), each entry carries the occurrence count
of its symbol (hence at least 1), and the counts sum to the protein
length. -/
theorem aa_count_spec (protein : List Char) :
    (∀ c : Char, (∃ n, (c, n) ∈ aa_count protein) ↔ c ∈ protein) ∧
    (∀ p ∈ aa_count protein, p.2 = protein.count p.1 ∧ 1 ≤ p.2) ∧
    ((aa_count protein).map Prod.snd).sum = protein.length := by
  refine ⟨?_, ?_, ?_⟩
  · intro c
    constructor
    · rintro ⟨n, hn⟩
      simp only [aa_count, List.mem_map, Prod.mk.injEq] at hn
      obtain ⟨k, hk, hkc, -⟩ := hn
      exact (mem_counterKeys c protein).mp (hkc ▸ hk)
    · intro hc
      refine ⟨protein.count c, ?_⟩
      simp only [aa_count, List.mem_map, Prod.mk.injEq]
      exact ⟨c, (mem_counterKeys c protein).mpr hc, rfl, rfl⟩
  · intro p hp
    simp only [aa_count, List.mem_map] at hp
    obtain ⟨k, hk, rfl⟩ := hp
    refine ⟨rfl, ?_⟩
    have hmem : k ∈ protein := (mem_counterKeys k protein).mp hk
    simpa [Nat.succ_le, List.count_pos_iff] using hmem
  · have hmap : (aa_count protein).map Prod.snd =
        (counterKeys protein).map (fun c => protein.count c) := by
      simp [aa_count, List.map_map, Function.comp]
    rw [hmap, counterKeys_sum_count]

/-- C8 witness: the theorem applied to the concrete protein MHM of
Scenario E. -/
theorem aa_count_spec_witness :
    (∀ c : Char, (∃ n, (c, n) ∈ aa_count ("MHM".toList)) ↔ c ∈ "MHM".toList) ∧
    (∀ p ∈ aa_count ("MHM".toList),
      p.2 = ("MHM".toList).count p.1 ∧ 1 ≤ p.2) ∧
    ((aa_count ("MHM".toList)).map Prod.snd).sum = ("MHM".toList).length :=
  aa_count_spec ("MHM".toList)

theorem clean_sequence_fixed (l : List Char)
    (h : ∀ c ∈ l, allowed c = true) : clean_sequence l = l := by
  induction l with
  | nil => rfl
  | cons c rest ih =>
    have hc : allowed c = true := h c (List.mem_cons_self c rest)
    have hrest : clean_sequence rest = rest :=
      ih (fun x hx => h x (List.mem_cons_of_mem c hx))
    have hcases : c = 'A' ∨ c = 'T' ∨ c = 'G' ∨ c = 'C' := by
      simp only [allowed, Bool.or_eq_true, beq_iff_eq] at hc
      tauto
    rcases hcases with h1 | h1 | h1 | h1 <;> subst h1
    · rw [show clean_sequence ('A' :: rest) = 'A' :: clean_sequence rest from rfl, hrest]
    · rw [show clean_sequence ('T' :: rest) = 'T' :: clean_sequence rest from rfl, hrest]
    · rw [show clean_sequence ('G' :: rest) = 'G' :: clean_sequence rest from rfl, hrest]
    · rw [show clean_sequence ('C' :: rest) = 'C' :: clean_sequence rest from rfl, hrest]

/-- C10: `clean_sequence` is idempotent; every string over the clean
alphabet is a fixed point. -/
theorem clean_sequence_idempotent (s : List Char) :
    clean_sequence (clean_sequence s) = clean_sequence s := by
  apply clean_sequence_fixed
  intro c hc
  simp only [clean_sequence, List.mem_filter] at hc
  exact hc.2

/-- C10 witness: the theorem applied to the Scenario A raw input. -/
theorem clean_sequence_idempotent_witness :
    clean_sequence (clean_sequence ("atg cat TAA".toList)) =
      clean_sequence ("atg cat TAA".toList) :=
  clean_sequence_idempotent ("atg cat TAA".toList)

/-- C1: on raw text whose first line begins with the FASTA marker, the
sanitizer output is computed solely from the lines that do not begin
with the marker (so header characters never reach the clean sequence),
and the Scenario B input sanitizes to ATGC. -/
theorem sanitize_fasta_strip (s : List Char) (h : startswithGt s = true) :
    sanitize s =
      clean_sequence (((splitlines s).filter (fun l => !startswithGt l)).flatten) ∧
    sanitize (">header\nATGC".toList) = "ATGC".toList := by
  constructor
  · simp [sanitize, extract_uploaded, h]
  · decide

/-- C1 witness: the theorem applied to the Scenario B input. -/
theorem sanitize_fasta_strip_witness :
    startswithGt (">header\nATGC".toList) = true ∧
    sanitize (">header\nATGC".toList) = "ATGC".toList :=
  ⟨by decide, (sanitize_fasta_strip (">header\nATGC".toList) (by decide)).2⟩

end DnaApp
